import Mathlib

/-!
Verification development for the motion-vector extraction pipeline of
`src/motion-vectors/basic/motion_vector_extractor.py` (class
`MotionVectorExtractor`).

Embedding conventions.

The external vision primitives (OpenCV color segmentation, contour and
ellipse fitting, dense optical flow, Canny, HoughLinesP) are treated as
collaborators: their outputs for the (already resized) frame are the inputs
of the model, and a primitive call that may raise an exception is modelled
as an `Except String` value (`.error` = the call raised).  Everything the
repository itself computes from those outputs (scaling, clamping,
threshold filtering, scoring, sorting, greedy deduplication, statistics,
the batch loop) is translated here directly.

Arithmetic convention (squared encoding).  The source works with Python
floats; the spec reads the arithmetic as exact real arithmetic.  Every
quantity of the pipeline that is a nonnegative real obtained as a Euclidean
norm — `vector_length`/`magnitude` (`sqrt(dx²+dy²)`), the raw flow
magnitude, the original edge-segment length, the dedup center distance —
is represented by its SQUARE, which is an exact rational in the inputs.
Since all these quantities are nonnegative reals, the encoding is lossless
and order-isomorphic: `a ≤ b ↔ a² ≤ b²` for `a, b ≥ 0`.  Field `dirSq`
is `dx²+dy²` of the stored `direction`, `magSq` is the square of the stored
`magnitude`, `qualitySq` the square of the stored `quality` (qualities are
nonnegative; for the flow and edge methods the quality itself involves a
square root of the input data, so only its square is rational).  A source
comparison `sqrt(s) ≥ t` against a configuration value `t` becomes
`sqrtGe s t` (`t ≤ 0 ∨ t² ≤ s`), which agrees with the source whenever the
compared length is the nonnegative root — true throughout the shipped
configuration and every configuration the claims quantify over.
`confidence` and the configured thresholds are rational in the source and
are kept as plain rationals.  The trigonometric decomposition in the
ffmpeg extractor (`dx = magnitude·cos θ`, `dy = magnitude·sin θ`)
contributes `dx²+dy² = magnitude²`, so the angle disappears from the
squared encoding; the stored `angle` field and the method-specific
diagnostic fields (`area`, `flow_magnitude`, `original_length`) are read by
no claim and are not carried on the record.
-/

namespace MotionVectorExtractor

/-- Detection method tag: `'ffmpeg'`, `'flow'`, `'edge'` in the source dicts. -/
inductive Method where
  | ffmpeg
  | flow
  | edge
deriving DecidableEq, Inhabited

/-- Fusion priority order of the spec: FFMPEG_ARROW > OPTICAL_FLOW > EDGE_LINE. -/
def Method.prio : Method → ℕ
  | .ffmpeg => 2
  | .flow => 1
  | .edge => 0

/-- One candidate vector dict (squared encoding, see the header comment).
`center` is a pair of Python ints; `dirSq = dx²+dy²` of `direction`;
`magSq` is the square of the stored `magnitude` float; `qualitySq` the
square of the stored `quality`; `confidence` is stored as-is (it is
rational in the source). -/
structure Detection where
  center : ℤ × ℤ
  dirSq : ℚ
  magSq : ℚ
  qualitySq : ℚ
  confidence : ℚ
  method : Method
deriving DecidableEq, Inhabited

/-- The `self.params` dictionary set in `__init__` (lines 44-54).  The
`optimal_length` entry is never read by the code and is omitted.  The
constructor performs no validation of these values. -/
structure Params where
  max_vector_length : ℚ
  min_vector_length : ℚ
  ffmpeg_scale : ℚ
  flow_scale : ℚ
  edge_scale : ℚ
  quality_threshold : ℚ
  confidence_threshold : ℚ
  max_vectors_per_frame : ℕ

/-- The hard-coded parameter values of `__init__`:
max 18, min 4, scales 0.4 / 0.25 / 0.5, thresholds 0.3 / 0.4, cap 50. -/
def defaultParams : Params :=
  { max_vector_length := 18
    min_vector_length := 4
    ffmpeg_scale := 2/5
    flow_scale := 1/4
    edge_scale := 1/2
    quality_threshold := 3/10
    confidence_threshold := 2/5
    max_vectors_per_frame := 50 }

/-- Squared encoding of `sqrt s ≥ t` for a nonnegative root `sqrt s`. -/
def sqrtGe (s t : ℚ) : Prop := t ≤ 0 ∨ t ^ 2 ≤ s

/-- Squared encoding of `sqrt s > t` for a nonnegative root `sqrt s`. -/
def sqrtGt (s t : ℚ) : Prop := t < 0 ∨ t ^ 2 < s

instance (s t : ℚ) : Decidable (sqrtGe s t) := by unfold sqrtGe; infer_instance

instance (s t : ℚ) : Decidable (sqrtGt s t) := by unfold sqrtGt; infer_instance

/-- Python `int()` applied to a rational: truncation toward zero. -/
def pyInt (q : ℚ) : ℤ := Int.tdiv q.num q.den

/-- Python `range(start, stop, step)` for a positive `step`. -/
def pyRange (start stop step : ℤ) : List ℤ :=
  if start < stop then
    (List.range ((stop - start - 1).toNat / step.toNat + 1)).map fun k => start + step * k
  else []

/-- Length-constraint block repeated verbatim inside each of the three
extractors (lines 113-120, 167-174 and 216-223): given the squared length
of the method-scaled direction, clamp to `max_vector_length` (rescaling the
direction pins both the direction norm and the stored `vector_length` to
exactly the cap, so in the squared encoding both become `max²`), then keep
the vector only if `vector_length ≥ min_vector_length`.  Returns the common
squared value of the surviving direction norm and magnitude. -/
def applyLengthConstraints (p : Params) (dSq : ℚ) : Option ℚ :=
  let dSq2 := if sqrtGt dSq p.max_vector_length then p.max_vector_length ^ 2 else dSq
  if sqrtGe dSq2 p.min_vector_length then some dSq2 else none

/-- One contour as delivered by the vision primitives for one green range:
`cv2.contourArea`, the spatial moments used for the centroid, the number of
contour points (ellipse fitting needs ≥ 5) and the fitted ellipse axes. -/
structure Contour where
  area : ℚ
  m00 : ℚ
  m10 : ℚ
  m01 : ℚ
  nPoints : ℕ
  ellipseW : ℚ
  ellipseH : ℚ
deriving DecidableEq

/-- Body of the contour loop of `extract_ffmpeg_vectors` (lines 91-131) for
the green range with index `rangeIdx`: area band `[2, 50]`, positive
`m00`, centroid via `int(m10/m00)`, ellipse fit for contours with ≥ 5
points, `magnitude = max(width, height) * ffmpeg_scale`, trig
decomposition (whose squared norm is `magnitude²`), length constraints,
`quality = min(area/50, 1)`, `confidence = 0.9 - 0.1·rangeIdx`. -/
def ffmpegContourVector (p : Params) (rangeIdx : ℕ) (c : Contour) : Option Detection :=
  if 2 ≤ c.area ∧ c.area ≤ 50 then
    if 0 < c.m00 then
      if 5 ≤ c.nPoints then
        let magnitude := max c.ellipseW c.ellipseH * p.ffmpeg_scale
        match applyLengthConstraints p (magnitude ^ 2) with
        | some dSq =>
            some { center := (pyInt (c.m10 / c.m00), pyInt (c.m01 / c.m00))
                   dirSq := dSq
                   magSq := dSq
                   qualitySq := min (c.area / 50) 1 ^ 2
                   confidence := 9/10 - (rangeIdx : ℚ) / 10
                   method := .ffmpeg }
        | none => none
      else none
    else none
  else none

/-- Model of `extract_ffmpeg_vectors` (lines 71-133): the input is, for
each of the three green HSV ranges (in source order, index 0 first), the
contour list the primitives produced on the masked resized frame.  The
`countNonZero` guard only skips contour extraction on an empty mask, which
yields no contours anyway.  This extractor has no try/except: the
possibility of its primitives raising is handled at the caller
(`scaledCandidates`), where it propagates. -/
def extract_ffmpeg_vectors (p : Params) (ranges : List (List Contour)) : List Detection :=
  ranges.enum.flatMap fun ic => ic.2.filterMap (ffmpegContourVector p ic.1)

/-- Body of the grid-sampling loop of `extract_optical_flow_vectors`
(lines 156-184) at grid point `(x, y)`: noise floor `magnitude > 0.8`,
scaling by `flow_scale`, length constraints, `quality = min(magnitude/4, 1)`,
fixed confidence 0.7. -/
def flowSampleVector (p : Params) (flow : ℤ → ℤ → ℚ × ℚ) (y x : ℤ) : Option Detection :=
  let f := flow y x
  let rawSq := f.1 ^ 2 + f.2 ^ 2
  if sqrtGt rawSq (4/5) then
    match applyLengthConstraints p (rawSq * p.flow_scale ^ 2) with
    | some dSq =>
        some { center := (x, y)
               dirSq := dSq
               magSq := dSq
               qualitySq := min (rawSq / 16) 1
               confidence := 7/10
               method := .flow }
    | none => none
  else none

/-- Model of `extract_optical_flow_vectors` (lines 135-188).  `h`/`w` are the
dimensions of the (resized) frame, which is also the shape of the flow
field; `flowRes` models the `cv2.calcOpticalFlowFarneback` call of the
`try` block: `.error` means the call raised, and the `except` clause
(lines 185-186) turns that into zero detections from this method.  The
sampling grid is `range(25, h-25, 25) × range(25, w-25, 25)` in row-major
order (the source sets `step = 25`). -/
def extract_optical_flow_vectors (p : Params) (h w : ℤ)
    (flowRes : Except String (ℤ → ℤ → ℚ × ℚ)) : List Detection :=
  match flowRes with
  | .error _ => []
  | .ok flow =>
      (pyRange 25 (h - 25) 25).flatMap fun y =>
        (pyRange 25 (w - 25) 25).filterMap fun x => flowSampleVector p flow y x

/-- One line segment from `cv2.HoughLinesP`. -/
structure Line where
  x1 : ℤ
  y1 : ℤ
  x2 : ℤ
  y2 : ℤ
deriving DecidableEq

/-- Body of the line loop of `extract_edge_vectors` (lines 204-233):
midpoint center (Python `//` is floor division), raw direction
`(x2-x1, y2-y1)` scaled by `edge_scale`, length constraints,
`quality = min(original_length/30, 1)`, fixed confidence 0.6. -/
def edgeLineVector (p : Params) (l : Line) : Option Detection :=
  let dx := l.x2 - l.x1
  let dy := l.y2 - l.y1
  let origSq : ℚ := ((dx ^ 2 + dy ^ 2 : ℤ) : ℚ)
  match applyLengthConstraints p (origSq * p.edge_scale ^ 2) with
  | some dSq =>
      some { center := (Int.fdiv (l.x1 + l.x2) 2, Int.fdiv (l.y1 + l.y2) 2)
             dirSq := dSq
             magSq := dSq
             qualitySq := min (origSq / 900) 1
             confidence := 3/5
             method := .edge }
  | none => none

/-- Model of `extract_edge_vectors` (lines 190-235): `lines? = none`
models `HoughLinesP` returning `None`.  This extractor has no try/except:
the possibility of its primitives raising is handled at the caller
(`scaledCandidates`), where it propagates. -/
def extract_edge_vectors (p : Params) (lines? : Option (List Line)) : List Detection :=
  match lines? with
  | none => []
  | some lines => lines.filterMap (edgeLineVector p)

/-- Inputs of `extract_motion_vectors_from_frame` for one successfully
decoded frame: the original dimensions `frame.shape[:2] = (h, w)` and the
vision-primitive outputs on the resized frame for the three extractors. -/
structure FrameData where
  h : ℤ
  w : ℤ
  ffmpeg : Except String (List (List Contour))
  flow : Except String (ℤ → ℤ → ℚ × ℚ)
  lines : Except String (Option (List Line))

/-- Resize bookkeeping of lines 244-252: frames larger than 600px on the
longer side are processed at scale `600/max(h,w)` and mapped back with
`scale_back = max(h,w)/600`; the resized dimensions go through `int()`.
Returns `(new_h, new_w, scale_back)`. -/
def resizeGeometry (h w : ℤ) : ℤ × ℤ × ℚ :=
  if 600 < max h w then
    let scale : ℚ := 600 / ((max h w : ℤ) : ℚ)
    (pyInt ((h : ℚ) * scale), pyInt ((w : ℚ) * scale), ((max h w : ℤ) : ℚ) / 600)
  else (h, w, 1)

/-- Map one vector back to original resolution (lines 271-276): centers are
rescaled and `int()`-truncated; direction and magnitude get the extra
conservative damping factor 0.8, so both squares scale by `(sb·0.8)²`. -/
def scaleBackVector (sb : ℚ) (v : Detection) : Detection :=
  { v with
    center := (pyInt ((v.center.1 : ℚ) * sb), pyInt ((v.center.2 : ℚ) * sb))
    dirSq := v.dirSq * (sb * (4/5)) ^ 2
    magSq := v.magSq * (sb * (4/5)) ^ 2 }

/-- Lines 254-276: run the three extractors in source order on the resized
frame, concatenate, and map back to original resolution when the frame was
downscaled.  A raising ffmpeg primitive aborts before the other extractors
run, and a raising edge primitive aborts the frame, because those two
extractors have no try/except of their own; only the flow extractor
absorbs its failure (inside `extract_optical_flow_vectors`). -/
def scaledCandidates (p : Params) (fd : FrameData) : Except String (List Detection) :=
  let g := resizeGeometry fd.h fd.w
  match fd.ffmpeg with
  | .error e => .error e
  | .ok ranges =>
      match fd.lines with
      | .error e => .error e
      | .ok lines? =>
          let all := extract_ffmpeg_vectors p ranges
            ++ extract_optical_flow_vectors p g.1 g.2.1 fd.flow
            ++ extract_edge_vectors p lines?
          .ok (if g.2.2 ≠ 1 then all.map (scaleBackVector g.2.2) else all)

/-- Threshold filter of lines 279-283: `quality ≥ quality_threshold` and
`confidence ≥ confidence_threshold` (quality compared in the squared
encoding, confidence directly). -/
def passesThresholds (p : Params) (v : Detection) : Prop :=
  sqrtGe v.qualitySq p.quality_threshold ∧ p.confidence_threshold ≤ v.confidence

instance (p : Params) (v : Detection) : Decidable (passesThresholds p v) := by
  unfold passesThresholds; infer_instance

/-- Squared combined score: the source scores by `quality * confidence`
(line 286); both factors are nonnegative, so comparisons of the score agree
with comparisons of `scoreSq`. -/
def scoreSq (v : Detection) : ℚ := v.qualitySq * v.confidence ^ 2

/-- Stable insertion into a descending-sorted list: strictly higher-scored
elements stay in front, so among equal scores the earlier element of the
original list stays first. -/
def insertScored (x : Detection) : List Detection → List Detection
  | [] => [x]
  | y :: ys => if scoreSq x < scoreSq y then y :: insertScored x ys else x :: y :: ys

/-- Model of line 287, `scored_vectors.sort(key=lambda x: x[0], reverse=True)`:
Python list sort is stable, and a stable descending sort has exactly one
possible output (descending by score, equal scores in original order),
which this insertion sort produces. -/
def sortByScoreDesc : List Detection → List Detection
  | [] => []
  | x :: xs => insertScored x (sortByScoreDesc xs)

/-- Filtered-and-sorted candidate list of lines 279-287, the input of the
greedy deduplication. -/
def sortedSurvivors (p : Params) (cands : List Detection) : List Detection :=
  sortByScoreDesc (cands.filter fun v => decide (passesThresholds p v))

/-- Squared center distance used by the duplicate test of lines 294-296:
`dist = sqrt((Δx)² + (Δy)²)`, `dist < 15  ↔  distSq < 225`. -/
def centerDistSq (a b : Detection) : ℤ :=
  (a.center.1 - b.center.1) ^ 2 + (a.center.2 - b.center.2) ^ 2

/-- Separation invariant between two accepted detections: centers at
least the dedup radius (15px) apart, in the squared encoding. -/
def farApart (a b : Detection) : Prop := 225 ≤ centerDistSq a b

/-- Strict form of the separation property as the spec phrases it
(distance strictly greater than the dedup radius). -/
def strictlyFarApart (a b : Detection) : Prop := 225 < centerDistSq a b

instance (a b : Detection) : Decidable (farApart a b) := by unfold farApart; infer_instance

instance (a b : Detection) : Decidable (strictlyFarApart a b) := by
  unfold strictlyFarApart; infer_instance

/-- Order produced by the stable descending sort: strictly smaller score
after, and among equal scores the original (method-grouped) order, hence
nonincreasing method priority. -/
def scoreOrder (a b : Detection) : Prop :=
  scoreSq b < scoreSq a ∨ (scoreSq a = scoreSq b ∧ Method.prio b.method ≤ Method.prio a.method)

/-- Nonincreasing method priority, the order in which lines 254-267 build
the concatenated candidate list. -/
def prioOrder (a b : Detection) : Prop := Method.prio b.method ≤ Method.prio a.method

/-- Duplicate test against the already accepted list (lines 292-298). -/
def isDuplicate (acc : List Detection) (v : Detection) : Bool :=
  acc.any fun e => decide (centerDistSq v e < 225)

/-- Greedy selection loop of lines 290-303: walk the sorted list, skip
duplicates, append otherwise, and break once `max_vectors_per_frame`
vectors have been accepted (the count check runs after the append). -/
def selectGo (p : Params) : List Detection → List Detection → List Detection
  | [], acc => acc
  | v :: rest, acc =>
      if isDuplicate acc v then selectGo p rest acc
      else
        let acc2 := acc ++ [v]
        if p.max_vectors_per_frame ≤ acc2.length then acc2 else selectGo p rest acc2

/-- Final accepted vector list of one frame (lines 290-303). -/
def selectVectors (p : Params) (l : List Detection) : List Detection := selectGo p l []

/-- Filter, sort and deduplicate (lines 278-303). -/
def fuseVectors (p : Params) (cands : List Detection) : List Detection :=
  selectVectors p (sortedSurvivors p cands)

/-- Per-method counts of lines 306-309. -/
structure MethodCounts where
  ffmpeg : ℕ
  flow : ℕ
  edge : ℕ
deriving DecidableEq

def methodCountsOf (l : List Detection) : MethodCounts :=
  { ffmpeg := l.countP fun v => decide (v.method = .ffmpeg)
    flow := l.countP fun v => decide (v.method = .flow)
    edge := l.countP fun v => decide (v.method = .edge) }

/-- Min/max summary of lines 320-329 in the squared encoding, with the
source's 0 defaults on an empty list.  The source additionally reports
`np.mean` of the sampled values; that mean is a sum of square roots, is
not a rational function of the squared samples, and is read by no claim,
so it is not carried here. -/
structure StatsSq where
  minSq : ℚ
  maxSq : ℚ
deriving DecidableEq

def statsSqOf (l : List ℚ) : StatsSq :=
  match l with
  | [] => { minSq := 0, maxSq := 0 }
  | x :: xs => { minSq := xs.foldl min x, maxSq := xs.foldl max x }

/-- Result dict of `extract_motion_vectors_from_frame`.  The source returns
a plain dict whose key set differs between the error return of line 241
(only `vectors` and `error`) and the success return of lines 314-330
(everything except `error`); each key that is not always present is an
`Option`, with `none` meaning the key is absent. -/
structure FrameResult where
  vectors : List Detection
  error : Option String
  frame_path : Option String
  frame_size : Option (ℤ × ℤ)
  total_vectors : Option ℕ
  method_distribution : Option MethodCounts
  length_stats : Option StatsSq
  quality_stats : Option StatsSq
deriving DecidableEq, Inhabited

/-- The error return of lines 240-241. -/
def errorResult : FrameResult :=
  { vectors := []
    error := some "Could not load frame"
    frame_path := none
    frame_size := none
    total_vectors := none
    method_distribution := none
    length_stats := none
    quality_stats := none }

/-- The success return of lines 305-330 (`frame_size` is `(w, h)`; the
length statistics sample the stored magnitudes, the quality statistics the
stored qualities). -/
def successResult (p : Params) (frame_path : String) (fd : FrameData)
    (cands : List Detection) : FrameResult :=
  let final := fuseVectors p cands
  { vectors := final
    error := none
    frame_path := some frame_path
    frame_size := some (fd.w, fd.h)
    total_vectors := some final.length
    method_distribution := some (methodCountsOf final)
    length_stats := some (statsSqOf (final.map Detection.magSq))
    quality_stats := some (statsSqOf (final.map Detection.qualitySq)) }

/-- Model of `extract_motion_vectors_from_frame` (lines 237-330).
`decoded = none` models `cv2.imread` returning `None`; the function then
returns the two-key error dict without touching the extractors.  An
uncaught exception from the ffmpeg or edge primitives is the `.error` case
of the returned `Except`. -/
def extract_motion_vectors_from_frame (p : Params) (frame_path : String)
    (decoded : Option FrameData) : Except String FrameResult :=
  match decoded with
  | none => .ok errorResult
  | some fd => (scaledCandidates p fd).map (successResult p frame_path fd)

/-- The per-frame loop of `process_all_frames` (lines 350-372): one result
is appended per input frame, in input order; the loop body only reads the
result dict for logging, and nothing is caught, so an uncaught exception
from `extract_motion_vectors_from_frame` aborts the whole batch. -/
def process_all_frames (p : Params) :
    List (String × Option FrameData) → Except String (List FrameResult)
  | [] => .ok []
  | f :: rest =>
      match extract_motion_vectors_from_frame p f.1 f.2 with
      | .error e => .error e
      | .ok r =>
          match process_all_frames p rest with
          | .error e => .error e
          | .ok rs => .ok (r :: rs)

/-! Auxiliary predicates used by the statements. -/

/-- Invariants every freshly extracted (pre-scale-back) detection of method
`m` satisfies: correct tag, magnitude consistent with direction, and the
direction norm inside the configured band (all in the squared encoding). -/
def GoodRaw (p : Params) (m : Method) (v : Detection) : Prop :=
  v.method = m ∧ v.magSq = v.dirSq ∧ sqrtGe v.dirSq p.min_vector_length ∧
    v.dirSq ≤ p.max_vector_length ^ 2

/-- Frame input whose uncaught primitives (ffmpeg contours, Hough lines) do
not raise, so that per-frame extraction cannot abort the batch. -/
def noThrowInput : Option FrameData → Prop
  | none => True
  | some fd => fd.ffmpeg.isOk = true ∧ fd.lines.isOk = true

instance : (o : Option FrameData) → Decidable (noThrowInput o)
  | none => isTrue trivial
  | some _ => inferInstanceAs (Decidable (_ ∧ _))

/-! Concrete frame inputs used by the closed counterexamples and by the
witness instantiations of the universally quantified theorems. -/

/-- Frame with a single Hough line and no other detections; not downscaled
(100×100). -/
def smallFrame : FrameData :=
  { h := 100, w := 100
    ffmpeg := .ok [[], [], []]
    flow := .error "farneback raised"
    lines := .ok (some [⟨0, 0, 16, 0⟩]) }

def smallResult : FrameResult :=
  (extract_motion_vectors_from_frame defaultParams "small.png" (some smallFrame)).toOption.getD
    default

/-- Downscaled 1200×600 frame (`scale_back = 2`) with one large green blob
whose clamped vector is mapped back past the configured maximum. -/
def c1Frame : FrameData :=
  { h := 600, w := 1200
    ffmpeg := .ok [[{ area := 25, m00 := 1, m10 := 100, m01 := 100, nPoints := 5,
                      ellipseW := 60, ellipseH := 10 }], [], []]
    flow := .error "farneback raised"
    lines := .ok none }

def c1Result : FrameResult :=
  (extract_motion_vectors_from_frame defaultParams "c1.png" (some c1Frame)).toOption.getD default

/-- Frame carrying one ffmpeg blob of quality 0.29 (score 0.261) and one
edge line of quality 1/3 (score 0.2) within 15px of each other: under
`quality_threshold = 0.3` only the edge line survives filtering, under
`0.2` the blob enters, outscores the line and suppresses it in dedup. -/
def c2Frame : FrameData :=
  { h := 300, w := 300
    ffmpeg := .ok [[{ area := 29/2, m00 := 1, m10 := 100, m01 := 100, nPoints := 5,
                      ellipseW := 25, ellipseH := 10 }], [], []]
    flow := .error "farneback raised"
    lines := .ok (some [⟨97, 101, 103, 109⟩]) }

def c2LoParams : Params := { defaultParams with quality_threshold := 1/5 }

def c2HiResult : FrameResult :=
  (extract_motion_vectors_from_frame defaultParams "c2.png" (some c2Frame)).toOption.getD default

def c2LoResult : FrameResult :=
  (extract_motion_vectors_from_frame c2LoParams "c2.png" (some c2Frame)).toOption.getD default

/-- Candidate list of `c2Frame` before threshold filtering (the thresholds
play no part in candidate assembly, so the choice of configuration here
only fixes the scale factors, shared by both configurations). -/
def c2Cands : List Detection :=
  (scaledCandidates defaultParams c2Frame).toOption.getD []

/-- Frame with two equal-score Hough lines whose midpoints are exactly
15px apart: `15 < 15` is false, so neither suppresses the other. -/
def c3Frame : FrameData :=
  { h := 100, w := 100
    ffmpeg := .ok [[], [], []]
    flow := .error "farneback raised"
    lines := .ok (some [⟨2, 0, 18, 0⟩, ⟨17, 0, 33, 0⟩]) }

def c3Result : FrameResult :=
  (extract_motion_vectors_from_frame defaultParams "c3.png" (some c3Frame)).toOption.getD default

/-- Frame whose Hough-line primitive raises. -/
def c4Frame : FrameData :=
  { h := 100, w := 100
    ffmpeg := .ok [[], [], []]
    flow := .ok fun _ _ => (0, 0)
    lines := .error "hough raised" }

/-- Batch input with one undecodable frame followed by one good frame. -/
def c5Frames : List (String × Option FrameData) :=
  [("bad.png", none), ("small.png", some smallFrame)]

/-- Configuration with `min_vector_length > max_vector_length`, which the
spec calls invalid; the code never validates it. -/
def invalidParams : Params := { defaultParams with min_vector_length := 20 }

def invalidResult : FrameResult :=
  (extract_motion_vectors_from_frame invalidParams "c6.png" (some c3Frame)).toOption.getD default

/-! Lemmas about the squared comparisons and the shared clamp block. -/

theorem sqrtGe_mono {s t1 t2 : ℚ} (hle : t2 ≤ t1) (h : sqrtGe s t1) : sqrtGe s t2 := by
  rcases h with h | h
  · exact Or.inl (hle.trans h)
  · rcases le_or_lt t2 0 with h2 | h2
    · exact Or.inl h2
    · exact Or.inr (le_trans (pow_le_pow_left₀ h2.le hle 2) h)

theorem applyLengthConstraints_le {p : Params} {d : ℚ} :
    (if sqrtGt d p.max_vector_length then p.max_vector_length ^ 2 else d) ≤
      p.max_vector_length ^ 2 := by
  by_cases hc : sqrtGt d p.max_vector_length
  · rw [if_pos hc]
  · rw [if_neg hc]
    unfold sqrtGt at hc
    push_neg at hc
    exact hc.2

theorem applyLengthConstraints_bounds {p : Params} {d e : ℚ}
    (h : applyLengthConstraints p d = some e) :
    sqrtGe e p.min_vector_length ∧ e ≤ p.max_vector_length ^ 2 := by
  unfold applyLengthConstraints at h
  by_cases hg : sqrtGe (if sqrtGt d p.max_vector_length then p.max_vector_length ^ 2 else d)
      p.min_vector_length
  · rw [if_pos hg] at h
    cases h
    exact ⟨hg, applyLengthConstraints_le⟩
  · rw [if_neg hg] at h
    cases h

theorem applyLengthConstraints_invalid {p : Params} (h0 : 0 ≤ p.max_vector_length)
    (hlt : p.max_vector_length < p.min_vector_length) (d : ℚ) :
    applyLengthConstraints p d = none := by
  unfold applyLengthConstraints
  have hne : ¬ sqrtGe (if sqrtGt d p.max_vector_length then p.max_vector_length ^ 2 else d)
      p.min_vector_length := by
    rintro (h | h)
    · exact absurd (lt_of_le_of_lt h0 hlt) (not_lt.2 h)
    · have hsq : p.max_vector_length ^ 2 < p.min_vector_length ^ 2 :=
        pow_lt_pow_left₀ hlt h0 two_ne_zero
      exact absurd (le_trans h applyLengthConstraints_le) (not_le.2 hsq)
  rw [if_neg hne]

/-! Characterization of the three extractors' outputs. -/

theorem ffmpegContourVector_good {p : Params} {i : ℕ} {c : Contour} {v : Detection}
    (h : ffmpegContourVector p i c = some v) : GoodRaw p .ffmpeg v := by
  unfold ffmpegContourVector at h
  dsimp only [] at h
  split_ifs at h
  cases hal : applyLengthConstraints p ((max c.ellipseW c.ellipseH * p.ffmpeg_scale) ^ 2) with
  | none => rw [hal] at h; cases h
  | some dSq =>
      rw [hal] at h
      cases h
      obtain ⟨h1, h2⟩ := applyLengthConstraints_bounds hal
      exact ⟨rfl, rfl, h1, h2⟩

theorem mem_extract_ffmpeg_vectors {p : Params} {ranges : List (List Contour)} {v : Detection}
    (h : v ∈ extract_ffmpeg_vectors p ranges) : GoodRaw p .ffmpeg v := by
  unfold extract_ffmpeg_vectors at h
  simp only [List.mem_flatMap, List.mem_filterMap] at h
  obtain ⟨ic, _, c, _, hc⟩ := h
  exact ffmpegContourVector_good hc

theorem flowSampleVector_good {p : Params} {flow : ℤ → ℤ → ℚ × ℚ} {y x : ℤ} {v : Detection}
    (h : flowSampleVector p flow y x = some v) : GoodRaw p .flow v := by
  unfold flowSampleVector at h
  dsimp only [] at h
  split_ifs at h
  cases hal : applyLengthConstraints p
      (((flow y x).1 ^ 2 + (flow y x).2 ^ 2) * p.flow_scale ^ 2) with
  | none => rw [hal] at h; cases h
  | some dSq =>
      rw [hal] at h
      cases h
      obtain ⟨h1, h2⟩ := applyLengthConstraints_bounds hal
      exact ⟨rfl, rfl, h1, h2⟩

theorem mem_extract_optical_flow_vectors {p : Params} {h w : ℤ}
    {flowRes : Except String (ℤ → ℤ → ℚ × ℚ)} {v : Detection}
    (hv : v ∈ extract_optical_flow_vectors p h w flowRes) : GoodRaw p .flow v := by
  unfold extract_optical_flow_vectors at hv
  cases flowRes with
  | error e => cases hv
  | ok flow =>
      simp only [List.mem_flatMap, List.mem_filterMap] at hv
      obtain ⟨y, _, x, _, hx⟩ := hv
      exact flowSampleVector_good hx

theorem edgeLineVector_good {p : Params} {l : Line} {v : Detection}
    (h : edgeLineVector p l = some v) : GoodRaw p .edge v := by
  unfold edgeLineVector at h
  dsimp only [] at h
  cases hal : applyLengthConstraints p
      ((((l.x2 - l.x1) ^ 2 + (l.y2 - l.y1) ^ 2 : ℤ) : ℚ) * p.edge_scale ^ 2) with
  | none => rw [hal] at h; cases h
  | some dSq =>
      rw [hal] at h
      cases h
      obtain ⟨h1, h2⟩ := applyLengthConstraints_bounds hal
      exact ⟨rfl, rfl, h1, h2⟩

theorem mem_extract_edge_vectors {p : Params} {lines? : Option (List Line)} {v : Detection}
    (h : v ∈ extract_edge_vectors p lines?) : GoodRaw p .edge v := by
  unfold extract_edge_vectors at h
  cases lines? with
  | none => cases h
  | some lines =>
      simp only [List.mem_filterMap] at h
      obtain ⟨l, _, hl⟩ := h
      exact edgeLineVector_good hl

/-! Lemmas about the per-frame candidate assembly. -/

theorem scaleBackVector_magSq (sb : ℚ) (v : Detection) :
    (scaleBackVector sb v).magSq = v.magSq * (sb * (4/5)) ^ 2 := rfl

theorem scaleBackVector_dirSq (sb : ℚ) (v : Detection) :
    (scaleBackVector sb v).dirSq = v.dirSq * (sb * (4/5)) ^ 2 := rfl

theorem scaleBackVector_method (sb : ℚ) (v : Detection) :
    (scaleBackVector sb v).method = v.method := rfl

theorem scaledCandidates_ok {p : Params} {fd : FrameData} {cs : List Detection}
    (h : scaledCandidates p fd = .ok cs) :
    ∃ ranges lines?, fd.ffmpeg = Except.ok ranges ∧ fd.lines = Except.ok lines? ∧
      cs = (if (resizeGeometry fd.h fd.w).2.2 ≠ 1 then
              (extract_ffmpeg_vectors p ranges
                ++ extract_optical_flow_vectors p (resizeGeometry fd.h fd.w).1
                    (resizeGeometry fd.h fd.w).2.1 fd.flow
                ++ extract_edge_vectors p lines?).map
                (scaleBackVector (resizeGeometry fd.h fd.w).2.2)
            else
              extract_ffmpeg_vectors p ranges
                ++ extract_optical_flow_vectors p (resizeGeometry fd.h fd.w).1
                    (resizeGeometry fd.h fd.w).2.1 fd.flow
                ++ extract_edge_vectors p lines?) := by
  unfold scaledCandidates at h
  cases hf : fd.ffmpeg with
  | error e => rw [hf] at h; cases h
  | ok ranges =>
      cases hl : fd.lines with
      | error e => rw [hf, hl] at h; cases h
      | ok lines? =>
          rw [hf, hl] at h
          cases h
          exact ⟨ranges, lines?, rfl, rfl, rfl⟩

theorem mem_candidates_good {p : Params} {ranges : List (List Contour)} {g1 g2 : ℤ}
    {flowRes : Except String (ℤ → ℤ → ℚ × ℚ)} {lines? : Option (List Line)} {v : Detection}
    (h : v ∈ extract_ffmpeg_vectors p ranges
      ++ extract_optical_flow_vectors p g1 g2 flowRes
      ++ extract_edge_vectors p lines?) : ∃ m, GoodRaw p m v := by
  rcases List.mem_append.1 h with h2 | h2
  · rcases List.mem_append.1 h2 with h3 | h3
    · exact ⟨_, mem_extract_ffmpeg_vectors h3⟩
    · exact ⟨_, mem_extract_optical_flow_vectors h3⟩
  · exact ⟨_, mem_extract_edge_vectors h2⟩

theorem mem_scaledCandidates {p : Params} {fd : FrameData} {cs : List Detection} {v : Detection}
    (h : scaledCandidates p fd = .ok cs) (hv : v ∈ cs) :
    (∃ m, GoodRaw p m v) ∨
      ∃ m u, GoodRaw p m u ∧ v = scaleBackVector (resizeGeometry fd.h fd.w).2.2 u := by
  obtain ⟨ranges, lines?, -, -, rfl⟩ := scaledCandidates_ok h
  by_cases hsb : (resizeGeometry fd.h fd.w).2.2 ≠ 1
  · rw [if_pos hsb] at hv
    obtain ⟨u, hu, rfl⟩ := List.mem_map.1 hv
    obtain ⟨m, hm⟩ := mem_candidates_good hu
    exact Or.inr ⟨m, u, hm, rfl⟩
  · rw [if_neg hsb] at hv
    exact Or.inl (mem_candidates_good hv)

theorem mem_scaledCandidates_noResize {p : Params} {fd : FrameData} {cs : List Detection}
    {v : Detection} (hsb : (resizeGeometry fd.h fd.w).2.2 = 1)
    (h : scaledCandidates p fd = .ok cs) (hv : v ∈ cs) : ∃ m, GoodRaw p m v := by
  obtain ⟨ranges, lines?, -, -, rfl⟩ := scaledCandidates_ok h
  rw [if_neg (by simp [hsb])] at hv
  exact mem_candidates_good hv

/-! Lemmas about filtering, sorting and greedy deduplication. -/

theorem mem_insertScored {x v : Detection} {l : List Detection} :
    v ∈ insertScored x l ↔ v = x ∨ v ∈ l := by
  induction l with
  | nil => simp [insertScored]
  | cons y ys ih =>
      unfold insertScored
      by_cases hc : scoreSq x < scoreSq y
      · rw [if_pos hc]
        simp only [List.mem_cons, ih]
        tauto
      · rw [if_neg hc]
        simp only [List.mem_cons]

theorem mem_sortByScoreDesc {v : Detection} {l : List Detection} :
    v ∈ sortByScoreDesc l ↔ v ∈ l := by
  induction l with
  | nil => simp [sortByScoreDesc]
  | cons x xs ih =>
      unfold sortByScoreDesc
      rw [mem_insertScored, ih, List.mem_cons]

theorem mem_selectGo {p : Params} :
    ∀ {l acc : List Detection} {v : Detection}, v ∈ selectGo p l acc → v ∈ acc ∨ v ∈ l := by
  intro l
  induction l with
  | nil => intro acc v h; exact Or.inl h
  | cons x rest ih =>
      intro acc v h
      unfold selectGo at h
      by_cases hd : isDuplicate acc x = true
      · rw [if_pos hd] at h
        rcases ih h with h2 | h2
        · exact Or.inl h2
        · exact Or.inr (List.mem_cons_of_mem _ h2)
      · rw [if_neg hd] at h
        dsimp only [] at h
        by_cases hcap : p.max_vectors_per_frame ≤ (acc ++ [x]).length
        · rw [if_pos hcap] at h
          rcases List.mem_append.1 h with h2 | h2
          · exact Or.inl h2
          · simp only [List.mem_singleton] at h2
            exact Or.inr (h2 ▸ List.mem_cons_self x rest)
        · rw [if_neg hcap] at h
          rcases ih h with h2 | h2
          · rcases List.mem_append.1 h2 with h3 | h3
            · exact Or.inl h3
            · simp only [List.mem_singleton] at h3
              exact Or.inr (h3 ▸ List.mem_cons_self x rest)
          · exact Or.inr (List.mem_cons_of_mem _ h2)

theorem mem_fuseVectors {p : Params} {cands : List Detection} {v : Detection}
    (h : v ∈ fuseVectors p cands) : v ∈ cands := by
  unfold fuseVectors selectVectors at h
  rcases mem_selectGo h with h2 | h2
  · cases h2
  · unfold sortedSurvivors at h2
    rw [mem_sortByScoreDesc] at h2
    exact List.mem_of_mem_filter h2

theorem centerDistSq_comm (a b : Detection) : centerDistSq a b = centerDistSq b a := by
  unfold centerDistSq
  ring

theorem not_duplicate_far {acc : List Detection} {v : Detection}
    (hd : ¬ isDuplicate acc v = true) : ∀ e ∈ acc, 225 ≤ centerDistSq v e := by
  intro e he
  by_contra hlt
  exact hd (List.any_eq_true.2 ⟨e, he, decide_eq_true (lt_of_not_le hlt)⟩)

theorem selectGo_pairwise {p : Params} :
    ∀ {l acc : List Detection},
      acc.Pairwise farApart → (selectGo p l acc).Pairwise farApart := by
  intro l
  induction l with
  | nil => intro acc h; exact h
  | cons x rest ih =>
      intro acc h
      unfold selectGo
      by_cases hd : isDuplicate acc x = true
      · rw [if_pos hd]
        exact ih h
      · rw [if_neg hd]
        dsimp only []
        have hacc2 : (acc ++ [x]).Pairwise farApart := by
          rw [List.pairwise_append]
          refine ⟨h, List.pairwise_singleton _ _, ?_⟩
          intro a ha b hb
          rw [List.mem_singleton] at hb
          subst hb
          unfold farApart
          rw [centerDistSq_comm]
          exact not_duplicate_far hd a ha
        by_cases hcap : p.max_vectors_per_frame ≤ (acc ++ [x]).length
        · rw [if_pos hcap]
          exact hacc2
        · rw [if_neg hcap]
          exact ih hacc2

theorem selectGo_length {p : Params} :
    ∀ {l acc : List Detection}, acc.length < p.max_vectors_per_frame →
      (selectGo p l acc).length ≤ p.max_vectors_per_frame := by
  intro l
  induction l with
  | nil => intro acc h; exact h.le
  | cons x rest ih =>
      intro acc h
      unfold selectGo
      by_cases hd : isDuplicate acc x = true
      · rw [if_pos hd]
        exact ih h
      · rw [if_neg hd]
        dsimp only []
        have hlen : (acc ++ [x]).length = acc.length + 1 := by
          rw [List.length_append, List.length_singleton]
        by_cases hcap : p.max_vectors_per_frame ≤ (acc ++ [x]).length
        · rw [if_pos hcap]
          rw [hlen]
          exact h
        · rw [if_neg hcap]
          exact ih (lt_of_not_le hcap)

theorem insertScored_pairwise {x : Detection} {l : List Detection}
    (hl : l.Pairwise scoreOrder)
    (hall : ∀ y ∈ l, Method.prio y.method ≤ Method.prio x.method) :
    (insertScored x l).Pairwise scoreOrder := by
  induction l with
  | nil => exact List.pairwise_singleton _ _
  | cons y ys ih =>
      rw [List.pairwise_cons] at hl
      obtain ⟨hy, hys⟩ := hl
      unfold insertScored
      by_cases hc : scoreSq x < scoreSq y
      · rw [if_pos hc]
        rw [List.pairwise_cons]
        constructor
        · intro z hz
          rcases mem_insertScored.1 hz with rfl | hz2
          · exact Or.inl hc
          · exact hy z hz2
        · exact ih hys fun z hz => hall z (List.mem_cons_of_mem _ hz)
      · rw [if_neg hc]
        have hxy : scoreSq y ≤ scoreSq x := le_of_not_lt hc
        rw [List.pairwise_cons]
        constructor
        · intro z hz
          rcases List.mem_cons.1 hz with rfl | hz2
          · rcases lt_or_eq_of_le hxy with h2 | h2
            · exact Or.inl h2
            · exact Or.inr ⟨h2.symm, hall z (List.mem_cons_self _ _)⟩
          · rcases hy z hz2 with h2 | h2
            · exact Or.inl (lt_of_lt_of_le h2 hxy)
            · rcases lt_or_eq_of_le hxy with h3 | h3
              · exact Or.inl (lt_of_le_of_lt h2.1.ge h3)
              · exact Or.inr ⟨h3.symm.trans h2.1, hall z (List.mem_cons_of_mem _ hz2)⟩
        · exact List.pairwise_cons.2 ⟨hy, hys⟩

theorem sortByScoreDesc_pairwise {l : List Detection} (hp : l.Pairwise prioOrder) :
    (sortByScoreDesc l).Pairwise scoreOrder := by
  induction l with
  | nil => exact List.Pairwise.nil
  | cons x xs ih =>
      rw [List.pairwise_cons] at hp
      obtain ⟨hx, hxs⟩ := hp
      unfold sortByScoreDesc
      exact insertScored_pairwise (ih hxs) fun y hy => hx y (mem_sortByScoreDesc.1 hy)

/-! Lemmas about whole-frame extraction. -/

theorem successResult_vectors (p : Params) (path : String) (fd : FrameData)
    (cs : List Detection) : (successResult p path fd cs).vectors = fuseVectors p cs := rfl

theorem extract_ok_some {p : Params} {path : String} {fd : FrameData} {r : FrameResult}
    (h : extract_motion_vectors_from_frame p path (some fd) = .ok r) :
    ∃ cs, scaledCandidates p fd = .ok cs ∧ r = successResult p path fd cs := by
  unfold extract_motion_vectors_from_frame at h
  dsimp only [] at h
  cases hc : scaledCandidates p fd with
  | error e =>
      rw [hc] at h
      exact Except.noConfusion h
  | ok cs =>
      rw [hc] at h
      simp only [Except.map, Except.ok.injEq] at h
      exact ⟨cs, rfl, h.symm⟩

theorem resizeGeometry_noDownscale {h w : ℤ} (hs : max h w ≤ 600) :
    resizeGeometry h w = (h, w, 1) := by
  unfold resizeGeometry
  rw [if_neg (not_lt.2 hs)]

theorem GoodRaw_invalid {p : Params} {m : Method} {v : Detection}
    (h0 : 0 ≤ p.max_vector_length) (hlt : p.max_vector_length < p.min_vector_length) :
    ¬ GoodRaw p m v := by
  rintro ⟨-, -, hge, hle⟩
  rcases hge with h | h
  · exact absurd (lt_of_le_of_lt h0 hlt) (not_lt.2 h)
  · exact absurd (le_trans h hle) (not_le.2 (pow_lt_pow_left₀ hlt h0 two_ne_zero))

theorem scaledCandidates_isOk {p : Params} {fd : FrameData}
    (h1 : fd.ffmpeg.isOk = true) (h2 : fd.lines.isOk = true) :
    ∃ cs, scaledCandidates p fd = .ok cs := by
  cases hf : fd.ffmpeg with
  | error e => rw [hf] at h1; simp [Except.isOk, Except.toBool] at h1
  | ok ranges =>
      cases hl : fd.lines with
      | error e => rw [hl] at h2; simp [Except.isOk, Except.toBool] at h2
      | ok lines? =>
          unfold scaledCandidates
          rw [hf, hl]
          exact ⟨_, rfl⟩

theorem extract_isOk_of_noThrow {p : Params} {path : String} {dec : Option FrameData}
    (h : noThrowInput dec) :
    ∃ r, extract_motion_vectors_from_frame p path dec = .ok r := by
  cases dec with
  | none => exact ⟨errorResult, rfl⟩
  | some fd =>
      obtain ⟨h1, h2⟩ := h
      obtain ⟨cs, hcs⟩ := @scaledCandidates_isOk p fd h1 h2
      refine ⟨successResult p path fd cs, ?_⟩
      unfold extract_motion_vectors_from_frame
      dsimp only []
      rw [hcs]
      rfl

/-! Lemmas delivering the method-priority grouping of the candidate list. -/

theorem pairwise_prioOrder_of_const {l : List Detection} {m : Method}
    (h : ∀ v ∈ l, v.method = m) : l.Pairwise prioOrder := by
  refine List.pairwise_of_forall_mem_list ?_
  intro a ha b hb
  unfold prioOrder
  rw [h a ha, h b hb]

theorem candidates_pairwise_prio {p : Params} {ranges : List (List Contour)} {g1 g2 : ℤ}
    {flowRes : Except String (ℤ → ℤ → ℚ × ℚ)} {lines? : Option (List Line)} :
    (extract_ffmpeg_vectors p ranges
      ++ extract_optical_flow_vectors p g1 g2 flowRes
      ++ extract_edge_vectors p lines?).Pairwise prioOrder := by
  have hf : ∀ v ∈ extract_ffmpeg_vectors p ranges, v.method = Method.ffmpeg :=
    fun v hv => (mem_extract_ffmpeg_vectors hv).1
  have hl : ∀ v ∈ extract_optical_flow_vectors p g1 g2 flowRes, v.method = Method.flow :=
    fun v hv => (mem_extract_optical_flow_vectors hv).1
  have he : ∀ v ∈ extract_edge_vectors p lines?, v.method = Method.edge :=
    fun v hv => (mem_extract_edge_vectors hv).1
  rw [List.pairwise_append]
  refine ⟨?_, ?_, ?_⟩
  · rw [List.pairwise_append]
    refine ⟨pairwise_prioOrder_of_const hf, pairwise_prioOrder_of_const hl, ?_⟩
    intro a ha b hb
    unfold prioOrder
    rw [hf a ha, hl b hb]
    exact Nat.le_succ 1
  · exact pairwise_prioOrder_of_const he
  · intro a ha b hb
    unfold prioOrder
    rw [he b hb]
    rcases List.mem_append.1 ha with h2 | h2
    · rw [hf a h2]
      exact Nat.zero_le 2
    · rw [hl a h2]
      exact Nat.zero_le 1

theorem scaledCandidates_pairwise_prio {p : Params} {fd : FrameData} {cs : List Detection}
    (h : scaledCandidates p fd = .ok cs) : cs.Pairwise prioOrder := by
  obtain ⟨ranges, lines?, -, -, rfl⟩ := scaledCandidates_ok h
  by_cases hsb : (resizeGeometry fd.h fd.w).2.2 ≠ 1
  · rw [if_pos hsb]
    refine List.Pairwise.map _ ?_ candidates_pairwise_prio
    intro a b hab
    unfold prioOrder at hab ⊢
    rw [scaleBackVector_method, scaleBackVector_method]
    exact hab
  · rw [if_neg hsb]
    exact candidates_pairwise_prio

/-! Claim C1. -/

/-- C1 (counterexample): the claim asserts
`minVectorLength ≤ |v.direction| ≤ maxVectorLength` for every vector in the
final list, including for downscaled frames.  On the 1200×600 frame
`c1Frame` (`scale_back = 2`) the single accepted ffmpeg vector is clamped
to norm 18 and then mapped back by the factor `2 · 0.8 = 1.6`
(lines 270-276), giving squared norm `324 · 2.56 = 829.44 > 18²`, so the
claimed upper bound fails on the final accepted list. -/
theorem C1_counterexample :
    ¬ (∀ v ∈ c1Result.vectors,
        sqrtGe v.dirSq defaultParams.min_vector_length ∧
          v.dirSq ≤ defaultParams.max_vector_length ^ 2) :=
  of_decide_eq_true (by with_unfolding_all rfl)

/-- C1 (amended): for every frame processed at original resolution
(`max(h,w) ≤ 600`, so no scale-back mapping runs), every vector in the
final accepted list satisfies
`minVectorLength ≤ |direction| ≤ maxVectorLength` — in the squared
encoding, `sqrtGe dirSq min` and `dirSq ≤ max²`.  On downscaled frames the
same bounds hold for the pre-scale-back vectors, but the map-back
multiplies the norm by `scale_back · 0.8` and can leave the band. -/
theorem C1_theorem (p : Params) (path : String) (fd : FrameData) (r : FrameResult)
    (hsize : max fd.h fd.w ≤ 600)
    (hok : extract_motion_vectors_from_frame p path (some fd) = .ok r)
    (v : Detection) (hv : v ∈ r.vectors) :
    sqrtGe v.dirSq p.min_vector_length ∧ v.dirSq ≤ p.max_vector_length ^ 2 := by
  obtain ⟨cs, hcs, rfl⟩ := extract_ok_some hok
  rw [successResult_vectors] at hv
  have hv2 : v ∈ cs := mem_fuseVectors hv
  have hsb : (resizeGeometry fd.h fd.w).2.2 = 1 := by
    rw [resizeGeometry_noDownscale hsize]
  obtain ⟨m, hm⟩ := mem_scaledCandidates_noResize hsb hcs hv2
  exact ⟨hm.2.2.1, hm.2.2.2⟩

/-- C1 (witness): the amended theorem applied to the concrete 100×100
frame `smallFrame`, whose single accepted vector has squared norm 64. -/
theorem C1_witness :
    sqrtGe smallResult.vectors.headI.dirSq defaultParams.min_vector_length ∧
      smallResult.vectors.headI.dirSq ≤ defaultParams.max_vector_length ^ 2 :=
  C1_theorem defaultParams "small.png" smallFrame smallResult
    (by decide)
    (by with_unfolding_all rfl)
    smallResult.vectors.headI
    (of_decide_eq_true (by with_unfolding_all rfl))

/-! Claim C3. -/

/-- C3 (counterexample): the claim demands strictly more than the dedup
radius between any two accepted centers.  On `c3Frame` two equal-score
edge vectors with centers `(10,0)` and `(25,0)` — distance exactly 15 —
are both accepted, because line 296 only rejects `dist < 15`. -/
theorem C3_counterexample :
    c3Result.vectors.map Detection.center = [(10, 0), (25, 0)] ∧
      ¬ c3Result.vectors.Pairwise strictlyFarApart :=
  of_decide_eq_true (by with_unfolding_all rfl)

/-- C3 (amended): any two distinct vectors in the final accepted list of a
frame have centers at least the dedup radius apart
(`dist ≥ 15`, i.e. `225 ≤ centerDistSq`); a candidate is accepted exactly
when it is at distance ≥ 15 from every previously accepted center, so
distance exactly 15 is allowed. -/
theorem C3_theorem (p : Params) (path : String) (dec : Option FrameData) (r : FrameResult)
    (hok : extract_motion_vectors_from_frame p path dec = .ok r) :
    r.vectors.Pairwise farApart := by
  cases dec with
  | none =>
      cases hok
      exact List.Pairwise.nil
  | some fd =>
      obtain ⟨cs, hcs, rfl⟩ := extract_ok_some hok
      rw [successResult_vectors]
      unfold fuseVectors selectVectors
      exact selectGo_pairwise List.Pairwise.nil

/-- C3 (witness): the amended theorem applied to `c3Frame`, whose result
holds the two vectors at distance exactly 15. -/
theorem C3_witness : c3Result.vectors.Pairwise farApart :=
  C3_theorem defaultParams "c3.png" (some c3Frame) c3Result
    (by with_unfolding_all rfl)

/-! Claim C6. -/

/-- C6 (counterexample): the claim says a configuration with
`minVectorLength > maxVectorLength` is rejected at construction, before
any frame is processed.  The constructor performs no validation, and a
frame processed under such a configuration (`invalidParams`, min 20 >
max 18) succeeds without any error — the invalid configuration is never
rejected. -/
theorem C6_counterexample :
    extract_motion_vectors_from_frame invalidParams "c6.png" (some c3Frame) =
        .ok invalidResult ∧
      invalidResult.error = none ∧ invalidResult.vectors = [] :=
  ⟨by with_unfolding_all rfl, by with_unfolding_all rfl, by with_unfolding_all rfl⟩

/-- C6 (amended): the constructor validates nothing; the hard-coded
configuration satisfies `minVectorLength ≤ maxVectorLength`, and a
configuration with `min > max` (and a nonnegative max) is not rejected:
every frame still processes successfully, merely producing an empty
vector list, because no vector can pass both the clamp to `max` and the
`≥ min` floor. -/
theorem C6_theorem :
    defaultParams.min_vector_length ≤ defaultParams.max_vector_length ∧
      ∀ (p : Params) (path : String) (fd : FrameData) (r : FrameResult),
        0 ≤ p.max_vector_length → p.max_vector_length < p.min_vector_length →
        extract_motion_vectors_from_frame p path (some fd) = .ok r →
        r.vectors = [] := by
  constructor
  · norm_num [defaultParams]
  · intro p path fd r h0 hlt hok
    obtain ⟨cs, hcs, rfl⟩ := extract_ok_some hok
    have hnil : cs = [] := by
      rw [List.eq_nil_iff_forall_not_mem]
      intro v hv
      rcases mem_scaledCandidates hcs hv with ⟨m, hm⟩ | ⟨m, u, hm, -⟩
      · exact GoodRaw_invalid h0 hlt hm
      · exact GoodRaw_invalid h0 hlt hm
    subst hnil
    rfl

/-- C6 (witness): the amended theorem applied to `invalidParams` and
`c3Frame`. -/
theorem C6_witness : invalidResult.vectors = [] :=
  C6_theorem.2 invalidParams "c6.png" c3Frame invalidResult
    (by norm_num [invalidParams, defaultParams])
    (by norm_num [invalidParams, defaultParams])
    (by with_unfolding_all rfl)

/-! Claim C7. -/

/-- C7: the final accepted list never exceeds `max_vectors_per_frame`
(50 in the shipped configuration): the greedy selection breaks as soon as
the count reaches the cap.  (The check runs after an append, so the bound
requires a cap of at least 1, which 50 satisfies.) -/
theorem C7_theorem (p : Params) (path : String) (dec : Option FrameData) (r : FrameResult)
    (hmax : 1 ≤ p.max_vectors_per_frame)
    (hok : extract_motion_vectors_from_frame p path dec = .ok r) :
    r.vectors.length ≤ p.max_vectors_per_frame := by
  cases dec with
  | none =>
      cases hok
      exact Nat.zero_le _
  | some fd =>
      obtain ⟨cs, hcs, rfl⟩ := extract_ok_some hok
      rw [successResult_vectors]
      unfold fuseVectors selectVectors
      exact selectGo_length (lt_of_lt_of_le Nat.zero_lt_one hmax)

/-- C7 (witness): the cap theorem applied to `smallFrame` under the
shipped configuration (cap 50). -/
theorem C7_witness : smallResult.vectors.length ≤ defaultParams.max_vectors_per_frame :=
  C7_theorem defaultParams "small.png" (some smallFrame) smallResult
    (by decide)
    (by with_unfolding_all rfl)

/-! Claim C2. -/

/-- C2 (counterexample): the claim asserts the final accepted set under a
lower quality/confidence threshold is a superset of the one under a higher
threshold.  On `c2Frame`, with `quality_threshold` lowered from 0.3 to
0.2, a quality-0.29 ffmpeg blob (score 0.261) enters the filtered pool,
outranks the quality-1/3 edge vector (score 0.2) and suppresses it in the
greedy deduplication (their centers are 5·√2 < 15 apart), so the edge
vector accepted under the higher threshold disappears under the lower
one. -/
theorem C2_counterexample :
    ¬ (∀ v ∈ c2HiResult.vectors, v ∈ c2LoResult.vectors) :=
  of_decide_eq_true (by with_unfolding_all rfl)

/-- C2 (amended): threshold monotonicity does hold one stage earlier, at
the threshold filter itself (lines 279-283): for two configurations with
`quality_threshold` and `confidence_threshold` each lowered (or equal),
every candidate passing the stricter filter passes the looser one, so the
stricter filtered list is a sublist of the looser one.  The final lists
after score sorting and greedy spatial deduplication are not comparable,
as the counterexample shows. -/
theorem C2_theorem (p1 p2 : Params) (l : List Detection)
    (hq : p2.quality_threshold ≤ p1.quality_threshold)
    (hc : p2.confidence_threshold ≤ p1.confidence_threshold) :
    (l.filter fun v => decide (passesThresholds p1 v)).Sublist
      (l.filter fun v => decide (passesThresholds p2 v)) := by
  apply List.monotone_filter_right
  intro v hv
  rw [decide_eq_true_iff] at hv ⊢
  obtain ⟨h1, h2⟩ := hv
  exact ⟨sqrtGe_mono hq h1, le_trans hc h2⟩

/-- C2 (witness): the filter-stage monotonicity applied to the candidate
list of `c2Frame` and the two concrete configurations of the
counterexample. -/
theorem C2_witness :
    (c2Cands.filter fun v => decide (passesThresholds defaultParams v)).Sublist
      (c2Cands.filter fun v => decide (passesThresholds c2LoParams v)) :=
  C2_theorem defaultParams c2LoParams c2Cands
    (of_decide_eq_true (by with_unfolding_all rfl))
    (of_decide_eq_true (by with_unfolding_all rfl))

/-! Claim C4. -/

/-- C4 (counterexample): the claim says an exception in any of the three
extractors is caught at that extractor's boundary and the frame still
produces a result.  A raising Hough-line primitive (`c4Frame`) propagates
out of `extract_motion_vectors_from_frame` instead: the per-frame
extraction aborts with the exception. -/
theorem C4_counterexample :
    extract_motion_vectors_from_frame defaultParams "c4.png" (some c4Frame) =
      .error "hough raised" := by
  with_unfolding_all rfl

/-- C4 (amended): only the optical-flow extractor catches its primitive's
exception (the `try`/`except` of lines 144-186, absorbed as zero flow
detections, with the frame still succeeding whatever the flow primitive
does); the ffmpeg-arrow and edge-line extractors have no handler, so an
exception raised by their primitives propagates out of the per-frame
extraction. -/
theorem C4_theorem :
    (∀ (p : Params) (path : String) (fd : FrameData),
        fd.ffmpeg.isOk = true → fd.lines.isOk = true →
        (extract_motion_vectors_from_frame p path (some fd)).isOk = true) ∧
      (∀ (p : Params) (path : String) (fd : FrameData) (e : String),
        fd.ffmpeg = Except.error e →
        extract_motion_vectors_from_frame p path (some fd) = .error e) ∧
      (∀ (p : Params) (path : String) (fd : FrameData) (e : String),
        fd.ffmpeg.isOk = true → fd.lines = Except.error e →
        extract_motion_vectors_from_frame p path (some fd) = .error e) := by
  refine ⟨?_, ?_, ?_⟩
  · intro p path fd h1 h2
    obtain ⟨r, hr⟩ := @extract_isOk_of_noThrow p path (some fd) ⟨h1, h2⟩
    rw [hr]
    rfl
  · intro p path fd e hf
    unfold extract_motion_vectors_from_frame scaledCandidates
    dsimp only []
    rw [hf]
    rfl
  · intro p path fd e h1 hl
    cases hf : fd.ffmpeg with
    | error e2 => rw [hf] at h1; simp [Except.isOk, Except.toBool] at h1
    | ok ranges =>
        unfold extract_motion_vectors_from_frame scaledCandidates
        dsimp only []
        rw [hf, hl]
        rfl

/-- C4 (witness): the flow primitive of `smallFrame` raises and the frame
still succeeds, while the raising Hough primitive of `c4Frame` aborts the
frame with its exception. -/
theorem C4_witness :
    (extract_motion_vectors_from_frame defaultParams "small.png" (some smallFrame)).isOk
        = true ∧
      extract_motion_vectors_from_frame defaultParams "c4b.png" (some c4Frame) =
        .error "hough raised" :=
  ⟨C4_theorem.1 defaultParams "small.png" smallFrame rfl rfl,
    C4_theorem.2.2 defaultParams "c4b.png" c4Frame "hough raised" rfl rfl⟩

/-! Claim C8. -/

/-- C8: the list entering the greedy deduplication is sorted by descending
`score = quality · confidence` (compared here through `scoreSq`, the
square of the score, which orders identically), and any equal-score pair
appears in nonincreasing method priority
(FFMPEG_ARROW > OPTICAL_FLOW > EDGE_LINE): the candidate list is built by
running the extractors in that order, and the stable sort keeps the
relative order of equal keys. -/
theorem C8_theorem (p : Params) (fd : FrameData) (cs : List Detection)
    (hcs : scaledCandidates p fd = .ok cs) :
    (sortedSurvivors p cs).Pairwise scoreOrder := by
  have hp : cs.Pairwise prioOrder := scaledCandidates_pairwise_prio hcs
  unfold sortedSurvivors
  exact sortByScoreDesc_pairwise (hp.filter _)

/-- C8 (witness): the ordering theorem applied to the candidate list of
`c2Frame`, which carries one ffmpeg and one edge candidate with distinct
scores. -/
theorem C8_witness : (sortedSurvivors defaultParams c2Cands).Pairwise scoreOrder :=
  C8_theorem defaultParams c2Frame c2Cands (by with_unfolding_all rfl)

/-! Claim C9. -/

theorem consistent_of_mem_scaledCandidates {p : Params} {fd : FrameData}
    {cs : List Detection} {v : Detection} (hcs : scaledCandidates p fd = .ok cs)
    (hv : v ∈ cs) : v.magSq = v.dirSq := by
  rcases mem_scaledCandidates hcs hv with ⟨m, hm⟩ | ⟨m, u, hm, rfl⟩
  · exact hm.2.1
  · rw [scaleBackVector_magSq, scaleBackVector_dirSq, hm.2.1]

/-- C9: at every stage — directly out of each extractor (after creation
and clamping), after the scale-back mapping, and in the final accepted
list — the stored magnitude is exactly the Euclidean norm of the stored
direction: in the squared encoding, `magSq = dirSq` (both fields are
squares of nonnegative reals, so this equality is equivalent to
`magnitude = sqrt(dx²+dy²)` in exact real arithmetic). -/
theorem C9_theorem :
    (∀ (p : Params) (ranges : List (List Contour)) (v : Detection),
        v ∈ extract_ffmpeg_vectors p ranges → v.magSq = v.dirSq) ∧
      (∀ (p : Params) (h w : ℤ) (flowRes : Except String (ℤ → ℤ → ℚ × ℚ)) (v : Detection),
        v ∈ extract_optical_flow_vectors p h w flowRes → v.magSq = v.dirSq) ∧
      (∀ (p : Params) (lines? : Option (List Line)) (v : Detection),
        v ∈ extract_edge_vectors p lines? → v.magSq = v.dirSq) ∧
      (∀ (p : Params) (fd : FrameData) (cs : List Detection) (v : Detection),
        scaledCandidates p fd = .ok cs → v ∈ cs → v.magSq = v.dirSq) ∧
      (∀ (p : Params) (path : String) (dec : Option FrameData) (r : FrameResult)
        (v : Detection),
        extract_motion_vectors_from_frame p path dec = .ok r → v ∈ r.vectors →
        v.magSq = v.dirSq) := by
  refine ⟨?_, ?_, ?_, ?_, ?_⟩
  · intro p ranges v hv
    exact (mem_extract_ffmpeg_vectors hv).2.1
  · intro p h w flowRes v hv
    exact (mem_extract_optical_flow_vectors hv).2.1
  · intro p lines? v hv
    exact (mem_extract_edge_vectors hv).2.1
  · intro p fd cs v hcs hv
    exact consistent_of_mem_scaledCandidates hcs hv
  · intro p path dec r v hok hv
    cases dec with
    | none =>
        cases hok
        cases hv
    | some fd =>
        obtain ⟨cs, hcs, rfl⟩ := extract_ok_some hok
        rw [successResult_vectors] at hv
        exact consistent_of_mem_scaledCandidates hcs (mem_fuseVectors hv)

/-- C9 (witness): the consistency theorem applied to the vector accepted
from `smallFrame`. -/
theorem C9_witness :
    smallResult.vectors.headI.magSq = smallResult.vectors.headI.dirSq :=
  C9_theorem.2.2.2.2 defaultParams "small.png" (some smallFrame) smallResult
    smallResult.vectors.headI
    (by with_unfolding_all rfl)
    (of_decide_eq_true (by with_unfolding_all rfl))

/-! Claim C10. -/

/-- C10: when the frame buffer cannot be decoded the returned dict carries
exactly the `vectors` and `error` keys (every other key is absent, i.e.
`none`), while every successfully processed frame carries `frame_path`,
`frame_size`, `total_vectors`, `method_distribution`, `length_stats` and
`quality_stats` (all present) and no `error` key, with the length/quality
statistics equal to zero when the accepted list is empty. -/
theorem C10_theorem :
    (∀ (p : Params) (path : String),
        extract_motion_vectors_from_frame p path none = .ok errorResult) ∧
      (errorResult.vectors = [] ∧ errorResult.error = some "Could not load frame" ∧
        errorResult.frame_path = none ∧ errorResult.frame_size = none ∧
        errorResult.total_vectors = none ∧ errorResult.method_distribution = none ∧
        errorResult.length_stats = none ∧ errorResult.quality_stats = none) ∧
      (∀ (p : Params) (path : String) (fd : FrameData) (r : FrameResult),
        extract_motion_vectors_from_frame p path (some fd) = .ok r →
        r.error = none ∧ r.frame_path = some path ∧ r.frame_size = some (fd.w, fd.h) ∧
          r.total_vectors = some r.vectors.length ∧
          r.method_distribution = some (methodCountsOf r.vectors) ∧
          r.length_stats = some (statsSqOf (r.vectors.map Detection.magSq)) ∧
          r.quality_stats = some (statsSqOf (r.vectors.map Detection.qualitySq))) ∧
      statsSqOf ([] : List ℚ) = { minSq := 0, maxSq := 0 } := by
  refine ⟨fun p path => rfl, ⟨rfl, rfl, rfl, rfl, rfl, rfl, rfl, rfl⟩, ?_, rfl⟩
  intro p path fd r hok
  obtain ⟨cs, hcs, rfl⟩ := extract_ok_some hok
  exact ⟨rfl, rfl, rfl, rfl, rfl, rfl, rfl⟩

/-- C10 (witness): the success branch of the field-presence theorem
applied to `smallFrame`. -/
theorem C10_witness :
    smallResult.error = none ∧ smallResult.frame_path = some "small.png" ∧
      smallResult.frame_size = some (smallFrame.w, smallFrame.h) ∧
      smallResult.total_vectors = some smallResult.vectors.length ∧
      smallResult.method_distribution = some (methodCountsOf smallResult.vectors) ∧
      smallResult.length_stats = some (statsSqOf (smallResult.vectors.map Detection.magSq)) ∧
      smallResult.quality_stats =
        some (statsSqOf (smallResult.vectors.map Detection.qualitySq)) :=
  C10_theorem.2.2.1 defaultParams "small.png" smallFrame smallResult
    (by with_unfolding_all rfl)

/-! Claim C5. -/

/-- C5: an undecodable frame yields the error result (empty `vectors`,
`error` set) and never aborts the batch: as long as no frame input makes
an uncaught primitive raise, the batch produces exactly one result per
input frame, in input order (`rs[i]` is the result of `frames[i]`), and
every undecodable frame's slot holds the error result. -/
theorem C5_theorem (p : Params) (frames : List (String × Option FrameData))
    (hn : ∀ f ∈ frames, noThrowInput f.2) :
    ∃ rs, process_all_frames p frames = .ok rs ∧ rs.length = frames.length ∧
      (∀ (i : ℕ) (pf : String × Option FrameData), frames[i]? = some pf →
        rs[i]? = (extract_motion_vectors_from_frame p pf.1 pf.2).toOption) ∧
      (∀ (i : ℕ) (pf : String × Option FrameData) (r2 : FrameResult),
        frames[i]? = some pf → pf.2 = none → rs[i]? = some r2 →
        r2.vectors = [] ∧ r2.error = some "Could not load frame") := by
  induction frames with
  | nil =>
      refine ⟨[], rfl, rfl, ?_, ?_⟩
      · intro i pf hpf
        rw [List.getElem?_nil] at hpf
        cases hpf
      · intro i pf r2 hpf hnone hr2
        rw [List.getElem?_nil] at hpf
        cases hpf
  | cons f fs ih =>
      have hf : noThrowInput f.2 := hn f (List.mem_cons_self f fs)
      obtain ⟨r, hr⟩ := @extract_isOk_of_noThrow p f.1 f.2 hf
      obtain ⟨rs, hrs, hlen, hget, herr⟩ := ih fun g hg => hn g (List.mem_cons_of_mem f hg)
      refine ⟨r :: rs, ?_, ?_, ?_, ?_⟩
      · unfold process_all_frames
        rw [hr, hrs]
      · rw [List.length_cons, List.length_cons, hlen]
      · intro i pf hpf
        cases i with
        | zero =>
            rw [List.getElem?_cons_zero] at hpf
            cases hpf
            rw [List.getElem?_cons_zero, hr]
            rfl
        | succ n =>
            rw [List.getElem?_cons_succ] at hpf
            rw [List.getElem?_cons_succ]
            exact hget n pf hpf
      · intro i pf r2 hpf hnone hr2
        cases i with
        | zero =>
            rw [List.getElem?_cons_zero] at hpf hr2
            cases hpf
            cases hr2
            rw [hnone] at hr
            unfold extract_motion_vectors_from_frame at hr
            cases hr
            exact ⟨rfl, rfl⟩
        | succ n =>
            rw [List.getElem?_cons_succ] at hpf hr2
            exact herr n pf r2 hpf hnone hr2

/-- C5 (witness): the batch theorem applied to a concrete two-frame batch
whose first frame is undecodable. -/
theorem C5_witness :
    ∃ rs, process_all_frames defaultParams c5Frames = .ok rs ∧
      rs.length = c5Frames.length ∧
      (∀ (i : ℕ) (pf : String × Option FrameData), c5Frames[i]? = some pf →
        rs[i]? = (extract_motion_vectors_from_frame defaultParams pf.1 pf.2).toOption) ∧
      (∀ (i : ℕ) (pf : String × Option FrameData) (r2 : FrameResult),
        c5Frames[i]? = some pf → pf.2 = none → rs[i]? = some r2 →
        r2.vectors = [] ∧ r2.error = some "Could not load frame") :=
  C5_theorem defaultParams c5Frames (by decide)

end MotionVectorExtractor
